import Mathlib

/-!
Verification of the CVD simulator batch/validation core.

Shallow embedding of the Python sources of `types-of-cvd-simulator-app`
(`src/cvd_simulator/...`) together with proofs of the specification claims
about the batch coordinator, configuration validation, path sandboxing,
grayscale simulation, metadata round-tripping and the CLI exit protocol.

Conventions of the embedding:
* Python `dict` objects are modelled as insertion-ordered association lists
  (`List (key × value)`); assignment `d[k] = v` keeps the position of an
  existing key and appends fresh keys, exactly like CPython.
* A worker's per-path outcome is abstracted by an oracle `proc : P → Option R`
  (the worker functions `_process_single_image` and
  `_process_single_image_with_type` catch every exception and return `None`
  on failure, so their observable behaviour is exactly `Option R`).
* The nondeterministic completion order of `as_completed` is an explicit
  parameter (a permutation of the submitted paths).
* Python floats are modelled as rationals; machine paths as component lists.
-/

namespace CVD

/-! ## Python dictionaries as insertion-ordered association lists -/

variable {P R B : Type}

/-- `k in d` for a Python dict modelled as an association list. -/
def containsKey [DecidableEq P] (m : List (P × B)) (k : P) : Bool :=
  m.any (fun kv => decide (kv.1 = k))

/-- `d[k] = v` on a Python dict: overwrite in place if the key exists
(keeping its insertion position), otherwise append at the end. -/
def dictInsert [DecidableEq P] (m : List (P × B)) (k : P) (v : B) : List (P × B) :=
  match m with
  | [] => [(k, v)]
  | kv :: rest => if kv.1 = k then (k, v) :: rest else kv :: dictInsert rest k v

/-- `d.get(k)` / `d[k]` lookup on a Python dict. -/
def dlookup [DecidableEq P] (m : List (P × B)) (k : P) : Option B :=
  match m with
  | [] => none
  | kv :: rest => if kv.1 = k then some kv.2 else dlookup rest k

/-- `acc.update(m)`: insert every entry of `m` into `acc`, in order
(Python `dict.update`). -/
def dictMerge [DecidableEq P] (acc m : List (P × B)) : List (P × B) :=
  m.foldl (fun a kv => dictInsert a kv.1 kv.2) acc

/-! ## The batch coordinator (`core/simulator.py`) -/

/-- Exceptions a batch entry point can raise:
`BatchProcessingError(failed_items, success_count)` from the aggregate
failure policy, and `ValueError` from `range(0, total, 0)` when
`process_batch_chunked` is called with `chunk_size = 0`. -/
inductive BatchErr (P : Type) where
  | batchProcessingError (failedItems : List P) (successCount : Nat)
  | valueError
deriving DecidableEq

/-- Mutable state of the collection loop shared by `CVDSimulator.process_batch`
and `AsyncCVDSimulator.process_batch_parallel`: the `results` dict, the
`failed` list and the `success_count` counter. -/
structure BatchState (P R : Type) where
  results : List (P × Option R)
  failedItems : List P
  successCount : Nat
deriving DecidableEq

/-- Initial state of the collection loop: empty results dict, empty failed
list, `success_count = 0`. -/
def initState : BatchState P R := ⟨[], [], 0⟩

/-- One iteration of the collection loop: on success record the result and
bump `success_count`; on failure record `None` (the failure marker) and
append the path to `failed`.  This is the body of the `for path in
image_paths` loop of `process_batch` (lines 213-223) and of the
`for future in as_completed(futures)` loop of `process_batch_parallel`
(lines 384-401), which perform identical bookkeeping. -/
def processStep [DecidableEq P] (proc : P → Option R) (st : BatchState P R) (p : P) :
    BatchState P R :=
  match proc p with
  | some r =>
      { results := dictInsert st.results p (some r)
        failedItems := st.failedItems
        successCount := st.successCount + 1 }
  | none =>
      { results := dictInsert st.results p none
        failedItems := st.failedItems ++ [p]
        successCount := st.successCount }

/-- The aggregate failure policy shared by both batch entry points
(lines 226-235 and 407-417): raise `BatchProcessingError` iff `failed` is
non-empty and `success_count == 0`, otherwise return the results dict. -/
def finalizeBatch [DecidableEq P] (st : BatchState P R) :
    Except (BatchErr P) (List (P × Option R)) :=
  if st.failedItems ≠ [] ∧ st.successCount = 0 then
    .error (.batchProcessingError st.failedItems 0)
  else
    .ok st.results

/-- `CVDSimulator.process_batch` (simulator.py lines 178-235): sequential
loop over the input paths, then the aggregate failure policy. -/
def process_batch [DecidableEq P] (proc : P → Option R) (paths : List P) :
    Except (BatchErr P) (List (P × Option R)) :=
  if paths = [] then .ok []
  else finalizeBatch (paths.foldl (processStep proc) initState)

/-- `AsyncCVDSimulator.process_batch_parallel` (simulator.py lines 323-417).
One future is submitted per input path; `as_completed` yields them in a
nondeterministic order, which is the explicit `completionOrder` parameter
(a permutation of `paths` in every theorem).  The worker function returns
`None` on failure (it catches every exception), and a raised
`future.result()` is also recorded as a failure, so the per-future outcome
is exactly `proc p`.  The result dict, failed list, counter and the final
aggregate failure policy are identical to `process_batch`. -/
def process_batch_parallel [DecidableEq P] (proc : P → Option R)
    (paths completionOrder : List P) :
    Except (BatchErr P) (List (P × Option R)) :=
  if paths = [] then .ok []
  else finalizeBatch (completionOrder.foldl (processStep proc) initState)

/-- `[image_paths[i : i + chunk_size] for i in range(0, total, chunk_size)]`
for `chunk_size ≠ 0`: contiguous chunks for a positive size, and the empty
chunk list for a negative size (Python's `range(0, total, negative)` is
empty). -/
def pyChunks (cs : Int) : List P → List (List P)
  | [] => []
  | a :: rest =>
    if _h : 1 ≤ cs then
      (a :: rest).take cs.toNat :: pyChunks cs ((a :: rest).drop cs.toNat)
    else []
termination_by l => l.length
decreasing_by
  simp only [List.length_drop, List.length_cons]
  omega

/-- `AsyncCVDSimulator.process_batch_chunked` (simulator.py lines 419-456):
run `process_batch_parallel` once per chunk sequentially and merge the
result dicts with `all_results.update(chunk_results)`.  An exception
raised by a chunk propagates and aborts the remaining chunks.
`ordF` supplies each chunk's completion order.  `chunk_size = 0` makes
`range` raise `ValueError` (when the path list is non-empty). -/
def process_batch_chunked [DecidableEq P] (proc : P → Option R)
    (paths : List P) (cs : Int) (ordF : List P → List P) :
    Except (BatchErr P) (List (P × Option R)) :=
  if paths = [] then .ok []
  else if cs = 0 then .error .valueError
  else
    (pyChunks cs paths).foldlM
      (fun acc c => (process_batch_parallel proc c (ordF c)).map (dictMerge acc))
      []

/-! ## Dictionary keys -/

/-- The keys of a dict, in insertion order. -/
def dkeys (m : List (P × B)) : List P := m.map Prod.fst

/-! ## Enumerations (`enums.py`) and configuration (`config.py`) -/

/-- `CVDType` (enums.py): PROTAN, DEUTAN, TRITAN, GRAYSCALE. -/
inductive CVDType where
  | PROTAN
  | DEUTAN
  | TRITAN
  | GRAYSCALE
deriving DecidableEq

/-- `Algorithm` (enums.py): the closed set of simulator selection keys. -/
inductive Algorithm where
  | BRETTEL_1997
  | VIENOT_1999
  | MACHADO_2009
  | VISCHECK
  | AUTO
deriving DecidableEq

/-- `OutputFormat` (enums.py). -/
inductive OutputFormat where
  | JPEG
  | PNG
  | WEBP
  | TIFF
  | BMP
deriving DecidableEq

/-- `LogLevel` (enums.py). -/
inductive LogLevel where
  | DEBUG
  | INFO
  | WARNING
  | ERROR
  | CRITICAL
deriving DecidableEq

/-- `ValidationError(message, field, value, constraint)` (exceptions.py),
identified here by the offending field's name. -/
structure ValidationError where
  fieldName : String
deriving DecidableEq

/-- The `SimulationConfig` dataclass (config.py lines 24-68).  Python floats
are modelled as rationals; the `output_directory` is a path, modelled as its
component list.  (The `isinstance(output_directory, Path)` check of
`_validate` cannot fail in a typed embedding, since the field always holds a
path.) -/
structure SimulationConfig where
  algorithm : Algorithm
  severity : ℚ
  output_format : OutputFormat
  output_directory : List String
  quality : Int
  optimize : Bool
  log_level : LogLevel
  max_workers : Option Int
  max_image_size : Int
  max_image_dimension : Int
deriving DecidableEq

/-- `self.max_workers is not None and self.max_workers < 1`
(config.py line 108). -/
def workersInvalid (mw : Option Int) : Bool :=
  match mw with
  | none => false
  | some w => decide (w < 1)

/-- `SimulationConfig._validate` (config.py lines 74-132): the checks in
source order, each raising `ValidationError` for its field. -/
def SimulationConfig.validateFields (c : SimulationConfig) : Except ValidationError Unit :=
  if ¬ (0 ≤ c.severity ∧ c.severity ≤ 1) then .error ⟨"severity"⟩
  else if ¬ (1 ≤ c.quality ∧ c.quality ≤ 95) then .error ⟨"quality"⟩
  else if workersInvalid c.max_workers then .error ⟨"max_workers"⟩
  else if c.max_image_size < 1 then .error ⟨"max_image_size"⟩
  else if c.max_image_dimension < 1 then .error ⟨"max_image_dimension"⟩
  else .ok ()

/-- Dataclass construction: assign all fields, then `__post_init__` runs
`_validate`; if it raises, the exception propagates and no instance is
produced, otherwise the fully-assigned instance is returned. -/
def mkSimulationConfig (alg : Algorithm) (severity : ℚ) (fmt : OutputFormat)
    (outDir : List String) (quality : Int) (optimize : Bool) (lvl : LogLevel)
    (max_workers : Option Int) (max_image_size max_image_dimension : Int) :
    Except ValidationError SimulationConfig :=
  let c : SimulationConfig :=
    ⟨alg, severity, fmt, outDir, quality, optimize, lvl,
      max_workers, max_image_size, max_image_dimension⟩
  (c.validateFields).map (fun _ => c)

/-! ## Claim C8: grayscale simulation (`CVDSimulator.simulate`) -/

/-- One RGB pixel (8-bit channel values in the source; the claims hold for
arbitrary naturals). -/
structure RGB where
  r : Nat
  g : Nat
  b : Nat
deriving DecidableEq

/-- Pillow's RGB→L luma (convert.c):
`L24(rgb) = rgb[0]*19595 + rgb[1]*38470 + rgb[2]*7471 + 0x8000`, and the
8-bit value is `L24 >> 16` — the ITU-R 601-2 transform with rounding.
This is what `image.convert("L")` computes per pixel. -/
def lumaL (p : RGB) : Nat :=
  (p.r * 19595 + p.g * 38470 + p.b * 7471 + 32768) / 65536

/-- `image.convert("L").convert("RGB")` per pixel: luminance replicated to
three equal channels. -/
def grayscalePixel (p : RGB) : RGB :=
  ⟨lumaL p, lumaL p, lumaL p⟩

/-- `CVDSimulator.simulate` (simulator.py lines 68-119).  The GRAYSCALE case
is handled specially (`image.convert("L").convert("RGB")`, lines 92-96)
without touching the configuration; every other deficiency type is routed
to the external daltonlens simulator (selected by `config.algorithm`,
called with the image and `config.severity`), modelled by the opaque
parameter `ext`. -/
def simulate (ext : Algorithm → List RGB → CVDType → ℚ → List RGB)
    (cfg : SimulationConfig) (image : List RGB) (cvd_type : CVDType) : List RGB :=
  if cvd_type = CVDType.GRAYSCALE then image.map grayscalePixel
  else ext cfg.algorithm image cvd_type cfg.severity

/-! ## Security validator (`utils/validators.py`): filename and path
sanitization

Python strings are modelled as `List Char`; an absolute filesystem path is
modelled as its component list (the parts between `/` separators, under the
root).  `Path.resolve()` is modelled as lexical normalization of `.` and
`..` components (symlinks are outside the embedding). -/

/-- A Python string. -/
abbrev PyStr := List Char

/-- The allow-list of `sanitize_filename`
(`set('abcdefghijklmnopqrstuvwxyzABCDEFGHIJKLMNOPQRSTUVWXYZ0123456789._-')`,
validators.py line 233). -/
def safeChars : List Char :=
  "abcdefghijklmnopqrstuvwxyzABCDEFGHIJKLMNOPQRSTUVWXYZ0123456789._-".toList

/-- Python `s.replace(pat, rep)` for a non-empty pattern: replace all
non-overlapping occurrences, scanning left to right.  (Every pattern used
by `sanitize_filename` is non-empty; for an empty pattern this model
returns the string unchanged, whereas Python interleaves `rep`.) -/
def replacePat (pat rep : PyStr) : PyStr → PyStr
  | [] => []
  | c :: rest =>
    if pat ≠ [] ∧ pat.isPrefixOf (c :: rest) then
      rep ++ replacePat pat rep ((c :: rest).drop pat.length)
    else
      c :: replacePat pat rep rest
termination_by s => s.length
decreasing_by
  · simp only [List.length_drop, List.length_cons]
    have hlen : 0 < pat.length := List.length_pos.mpr (by tauto)
    omega
  · simp only [List.length_cons]
    omega

/-- `SecurityValidator.sanitize_filename` (validators.py lines 206-240):
replace `/`, `\`, NUL and the literal `..` by `_`; then replace every
character outside the allow-list by `_`; fall back to `unnamed_file` when
the result is empty or a lone underscore. -/
def sanitize_filename (filename : PyStr) : PyStr :=
  let r1 := replacePat ['/'] ['_'] filename
  let r2 := replacePat ['\\'] ['_'] r1
  let r3 := replacePat [Char.ofNat 0] ['_'] r2
  let r4 := replacePat ['.', '.'] ['_'] r3
  let r5 := r4.map (fun c => if c ∈ safeChars then c else '_')
  if r5 = [] ∨ r5 = ['_'] then "unnamed_file".toList else r5

/-- Split a string on `/` (the accumulator holds the current component,
reversed). -/
def splitSlashAux : PyStr → PyStr → List PyStr
  | [], acc => [acc.reverse]
  | c :: rest, acc =>
    if c = '/' then acc.reverse :: splitSlashAux rest []
    else splitSlashAux rest (c :: acc)

/-- The path components of a string: the non-empty parts between `/`
separators (as `pathlib` keeps them). -/
def pathComponents (s : PyStr) : List PyStr :=
  (splitSlashAux s []).filter (fun c => decide (c ≠ []))

/-- One step of lexical path resolution: `.` is dropped, `..` removes the
last component (at the root it stays at the root, as `Path.resolve` does),
anything else is appended. -/
def resolveStep (acc : List PyStr) (comp : PyStr) : List PyStr :=
  if comp = ['.'] then acc
  else if comp = ['.', '.'] then acc.dropLast
  else acc ++ [comp]

/-- `Path.resolve()` on an absolute path given as its raw component list:
lexical normalization of `.` and `..`. -/
def resolvePath (comps : List PyStr) : List PyStr :=
  comps.foldl resolveStep []

/-- `pathlib`'s `dir / name`: an absolute right operand replaces the left
one, otherwise the right operand's components are appended. -/
def pyJoin (base : List PyStr) (name : PyStr) : List PyStr :=
  if name.head? = some '/' then pathComponents name
  else base ++ pathComponents name

/-- `SecurityError(violation_type=...)` (exceptions.py). -/
structure PySecurityError where
  violationType : String
deriving DecidableEq

/-- `SecurityValidator.sanitize_output_path` (validators.py lines 242-294):
resolve the output directory, sanitize the filename, join, resolve again,
and check with `relative_to` that the result stays under the resolved
output directory; raise `SecurityError(PATH_TRAVERSAL)` otherwise. -/
def sanitize_output_path (output_dir : List PyStr) (filename : PyStr) :
    Except PySecurityError (List PyStr) :=
  let base := resolvePath output_dir
  let safe := sanitize_filename filename
  let target := resolvePath (pyJoin base safe)
  if base <+: target then .ok target
  else .error ⟨"PATH_TRAVERSAL"⟩

/-- `..`-substring detector: `hasDD s` iff two consecutive dots occur. -/
def hasDD : PyStr → Bool
  | [] => false
  | [_] => false
  | a :: b :: t => (decide (a = '.') && decide (b = '.')) || hasDD (b :: t)

/-! ## Claim C6: worker-count selection -/

/-- Python `x or y` where `x` is an optional integer: `None` and `0` are
falsy. -/
def pyOr (x : Option Int) (y : Int) : Int :=
  match x with
  | none => y
  | some v => if v = 0 then y else v

/-- `workers = max_workers or self.config.max_workers or cpu_count()` —
the worker-count computation of `CVDSimulator.process_batch` (line 206)
and `AsyncCVDSimulator.__init__` (line 320): the externally supplied
override first, then the config value, then the CPU count.  No clamping
to the number of input paths occurs in either entry point. -/
def effectiveWorkers (max_workers : Option Int) (cfgWorkers : Option Int) (cpu : Int) : Int :=
  pyOr max_workers (pyOr cfgWorkers cpu)

/-- Python `int(x)`: truncation toward zero (floats modelled as
rationals). -/
def pyTrunc (q : ℚ) : Int :=
  if q < 0 then -(Int.floor (-q)) else Int.floor q

/-- `get_optimal_workers` (simulator.py lines 459-494): memory-based limit,
CPU-based limit and image-count limit, clamped below by 1.  This standalone
helper is the only place any clamp to the image count exists; the batch
entry points never call it. -/
def get_optimal_workers (image_count : Int) (image_size_mb : ℚ)
    (available_memory_gb : ℚ) (available_cpus : Int) : Int :=
  let memory_based_limit := pyTrunc (available_memory_gb / (image_size_mb * 3 / 1024))
  let cpu_based_limit := available_cpus
  let count_based_limit := image_count
  max 1 (min (min memory_based_limit cpu_based_limit) count_based_limit)

/-- The worker count as the claim words it (spec §4.3): config value first,
then the external override, then the platform default, clamped into
`[1, number of input paths]`. -/
def claimedWorkers (cfgWorkers : Option Int) (override : Option Int)
    (cpu : Int) (pathCount : Int) : Int :=
  max 1 (min (cfgWorkers.getD (override.getD cpu)) pathCount)

/-! ## Claim C7: CLI exit protocol (`interfaces/cli.py`, `main`) -/

/-- How a CLI invocation terminates: `ret code` models `main` returning
`code` (the process then exits with it via `sys.exit(main())`), and
`sysExit code` models a `SystemExit` raised inside `main` (as
`parser.error` does with status 2). -/
inductive ExitOutcome where
  | ret (code : Int)
  | sysExit (code : Int)
deriving DecidableEq

/-- The parsed CLI arguments `main` branches on (cli.py lines 324-432):
the positional image list and the three list-and-exit flags. -/
structure CliArgs (P : Type) where
  images : List P
  list_algorithms : Bool
  list_types : Bool
  list_presets : Bool

/-- `main(args)` (cli.py lines 324-432).  `configOk` abstracts the
configuration-building `try` block (lines 366-385, returns 1 on failure),
`simOk` the simulator construction (lines 388-393), and `proc p` the
outcome of `process_single_image` for path `p` (1 on success, 0 on any
failure).  With zero images and no list flag, `parser.error(...)` is called
(line 351), which raises `SystemExit(2)` — `main` never returns in that
case.  The progress-bar and plain loops do identical counting, so they are
modelled once. -/
def main {P : Type} [DecidableEq P] (a : CliArgs P) (configOk simOk : Bool)
    (proc : P → Bool) : ExitOutcome :=
  if a.list_algorithms then .ret 0
  else if a.list_types then .ret 0
  else if a.list_presets then .ret 0
  else if a.images = [] then .sysExit 2
  else if ¬ configOk then .ret 1
  else if ¬ simOk then .ret 1
  else
    let success_count := a.images.countP proc
    .ret (if success_count = a.images.length then 0 else 1)

/-! ## Claim C9: metadata sidecar round-trip (`utils/metadata.py`)

`json.dump` followed by `json.load` is the identity on JSON values (Python
round-trips its `str`/`int`/`float`/`bool`/`None`/`dict`/`list` values
exactly, with dict insertion order preserved), so serialization is
modelled as the identity on a JSON value type and export/load are the
record↔JSON conversions performed by `export_metadata`/`load_metadata`. -/

/-- A JSON value (numbers modelled as rationals). -/
inductive JVal where
  | jstr (s : String)
  | jnum (q : ℚ)
  | jbool (b : Bool)
  | jnull
  | jarr (items : List JVal)
  | jobj (fields : List (String × JVal))

/-- The `SimulationMetadata` dataclass (metadata.py lines 27-54), with the
field types its annotations and `create_metadata` establish: four strings,
two string→string dicts, the free-form `config` dict, a float, a string. -/
structure SimulationMetadata where
  version : String
  timestamp : String
  input_file : String
  input_checksum : String
  output_files : List (String × String)
  config : List (String × JVal)
  system_info : List (String × String)
  execution_time_ms : ℚ
  notes : String

/-- A string→string dict as a JSON object's field list. -/
def strEntries (l : List (String × String)) : List (String × JVal) :=
  l.map (fun kv => (kv.1, .jstr kv.2))

/-- `export_metadata` (metadata.py lines 173-208): the JSON object written
to the sidecar file, with exactly the nine keys of the `data` dict in
source order. -/
def export_metadata (m : SimulationMetadata) : JVal :=
  .jobj [("version", .jstr m.version),
         ("timestamp", .jstr m.timestamp),
         ("input_file", .jstr m.input_file),
         ("input_checksum", .jstr m.input_checksum),
         ("output_files", .jobj (strEntries m.output_files)),
         ("config", .jobj m.config),
         ("system_info", .jobj (strEntries m.system_info)),
         ("execution_time_ms", .jnum m.execution_time_ms),
         ("notes", .jstr m.notes)]

/-- `data[k]` / `data.get(k, default)` on a parsed JSON object. -/
def jlookup (fields : List (String × JVal)) (k : String) : Option JVal :=
  match fields with
  | [] => none
  | kv :: rest => if kv.1 = k then some kv.2 else jlookup rest k

/-- Read back a string→string dict from a JSON object field list. -/
def demoteEntries : List (String × JVal) → Option (List (String × String))
  | [] => some []
  | (k, .jstr s) :: rest => (demoteEntries rest).map (fun r => (k, s) :: r)
  | _ => none

/-- `load_metadata` (metadata.py lines 211-235): read the nine fields back
(`data["version"]` … mandatory, the rest through `.get` with defaults).
Python performs no runtime type validation when rebuilding the dataclass;
the `Option` models reading values at the types the dataclass declares,
and `export_metadata` always produces exactly those shapes. -/
def load_metadata (j : JVal) : Option SimulationMetadata :=
  match j with
  | .jobj fields =>
    match asStr (jlookup fields "version") with
    | none => none
    | some version =>
    match asStr (jlookup fields "timestamp") with
    | none => none
    | some timestamp =>
    match asStr (jlookup fields "input_file") with
    | none => none
    | some input_file =>
    match asStr (jlookup fields "input_checksum") with
    | none => none
    | some input_checksum =>
    match getStrMap (jlookup fields "output_files") with
    | none => none
    | some output_files =>
    match getObj (jlookup fields "config") with
    | none => none
    | some config =>
    match getStrMap (jlookup fields "system_info") with
    | none => none
    | some system_info =>
    match getNum (jlookup fields "execution_time_ms") with
    | none => none
    | some execution_time_ms =>
    match getStr (jlookup fields "notes") with
    | none => none
    | some notes =>
      some ⟨version, timestamp, input_file, input_checksum, output_files,
        config, system_info, execution_time_ms, notes⟩
  | _ => none
where
  asStr : Option JVal → Option String
    | some (.jstr s) => some s
    | _ => none
  getStrMap : Option JVal → Option (List (String × String))
    | none => some []
    | some (.jobj fs) => demoteEntries fs
    | some _ => none
  getObj : Option JVal → Option (List (String × JVal))
    | none => some []
    | some (.jobj fs) => some fs
    | some _ => none
  getNum : Option JVal → Option ℚ
    | none => some 0
    | some (.jnum q) => some q
    | some _ => none
  getStr : Option JVal → Option String
    | none => some ""
    | some (.jstr s) => some s
    | some _ => none


/-! # Theorems -/

/-! ## Dictionary lemmas -/

section DictLemmas

variable [DecidableEq P]

theorem dlookup_dictInsert (m : List (P × B)) (k k' : P) (v : B) :
    dlookup (dictInsert m k v) k' = if k' = k then some v else dlookup m k' := by
  induction m with
  | nil =>
    by_cases h : k' = k
    · simp [dictInsert, dlookup, h]
    · simp [dictInsert, dlookup, h, Ne.symm h]
  | cons kv rest ih =>
    by_cases h1 : kv.1 = k
    · by_cases h2 : k' = k
      · simp [dictInsert, dlookup, h1, h2]
      · have h3 : ¬ kv.1 = k' := fun hh => h2 (hh.symm.trans h1)
        simp [dictInsert, dlookup, h1, h2, Ne.symm h2, h3]
    · by_cases h2 : kv.1 = k'
      · have h3 : ¬ k' = k := fun hh => h1 (hh ▸ h2)
        simp [dictInsert, dlookup, h1, h2, h3]
      · simp [dictInsert, dlookup, h1, h2, ih]


@[simp] theorem dkeys_nil : dkeys ([] : List (P × B)) = [] := rfl

@[simp] theorem dkeys_cons (kv : P × B) (rest : List (P × B)) :
    dkeys (kv :: rest) = kv.1 :: dkeys rest := rfl

theorem dkeys_dictInsert_of_mem (m : List (P × B)) (k : P) (v : B)
    (h : k ∈ dkeys m) : dkeys (dictInsert m k v) = dkeys m := by
  induction m with
  | nil => simp at h
  | cons kv rest ih =>
    by_cases h1 : kv.1 = k
    · simp [dictInsert, h1]
    · have hk : k ∈ dkeys rest := by
        rcases List.mem_cons.mp (by simpa using h) with h' | h'
        · exact absurd h'.symm h1
        · exact h'
      simp only [dictInsert, if_neg h1, dkeys_cons, ih hk]

theorem dkeys_dictInsert_of_not_mem (m : List (P × B)) (k : P) (v : B)
    (h : k ∉ dkeys m) : dkeys (dictInsert m k v) = dkeys m ++ [k] := by
  induction m with
  | nil => simp [dictInsert]
  | cons kv rest ih =>
    have h1 : ¬ kv.1 = k := by
      intro hh
      exact h (by simp [hh])
    have hk : k ∉ dkeys rest := by
      intro hh
      exact h (by simp [hh])
    simp only [dictInsert, if_neg h1, dkeys_cons, ih hk, List.cons_append]

theorem mem_dkeys_iff_dlookup (m : List (P × B)) (k : P) :
    k ∈ dkeys m ↔ dlookup m k ≠ none := by
  induction m with
  | nil => simp [dlookup]
  | cons kv rest ih =>
    by_cases h : kv.1 = k
    · simp [dlookup, h]
    · have h2 : ¬ k = kv.1 := fun hh => h hh.symm
      simp [dlookup, h, h2, ih]

theorem dkeys_nodup_dictInsert (m : List (P × B)) (k : P) (v : B)
    (h : (dkeys m).Nodup) : (dkeys (dictInsert m k v)).Nodup := by
  by_cases hk : k ∈ dkeys m
  · rw [dkeys_dictInsert_of_mem m k v hk]; exact h
  · rw [dkeys_dictInsert_of_not_mem m k v hk]
    simp [List.nodup_append, h, hk]

theorem dlookup_eq_none_of_not_mem (m : List (P × B)) (k : P)
    (h : k ∉ dkeys m) : dlookup m k = none := by
  by_contra hc
  exact h ((mem_dkeys_iff_dlookup m k).mpr hc)

theorem dlookup_dictMerge (acc m : List (P × B)) (k : P)
    (hm : (dkeys m).Nodup) :
    dlookup (dictMerge acc m) k = ((dlookup m k).orElse (fun _ => dlookup acc k)) := by
  induction m generalizing acc with
  | nil => simp [dictMerge, dlookup]
  | cons kv rest ih =>
    have hm' := List.nodup_cons.mp (by simpa using hm)
    have hstep : dictMerge acc (kv :: rest) = dictMerge (dictInsert acc kv.1 kv.2) rest := by
      simp [dictMerge]
    rw [hstep, ih _ hm'.2]
    by_cases h : k = kv.1
    · have hnone : dlookup rest kv.1 = none :=
        dlookup_eq_none_of_not_mem rest kv.1 hm'.1
      simp [dlookup, dlookup_dictInsert, h, hnone, Option.orElse]
    · have h2 : ¬ kv.1 = k := fun hh => h hh.symm
      simp [dlookup, dlookup_dictInsert, h, h2]

theorem dkeys_dictMerge_nodup (acc m : List (P × B))
    (hacc : (dkeys acc).Nodup) : (dkeys (dictMerge acc m)).Nodup := by
  induction m generalizing acc with
  | nil => exact hacc
  | cons kv rest ih =>
    have hstep : dictMerge acc (kv :: rest) = dictMerge (dictInsert acc kv.1 kv.2) rest := by
      simp [dictMerge]
    rw [hstep]
    exact ih _ (dkeys_nodup_dictInsert _ _ _ hacc)

end DictLemmas

/-! ## Collection-loop lemmas -/

section FoldLemmas

variable [DecidableEq P] (proc : P → Option R)

theorem processStep_results (st : BatchState P R) (p : P) :
    (processStep proc st p).results = dictInsert st.results p (proc p) := by
  cases h : proc p <;> simp [processStep, h]

theorem processStep_failedItems (st : BatchState P R) (p : P) :
    (processStep proc st p).failedItems =
      if (proc p).isNone then st.failedItems ++ [p] else st.failedItems := by
  cases h : proc p <;> simp [processStep, h]

theorem processStep_successCount (st : BatchState P R) (p : P) :
    (processStep proc st p).successCount =
      st.successCount + (if (proc p).isSome then 1 else 0) := by
  cases h : proc p <;> simp [processStep, h]

theorem foldl_processStep_dlookup (l : List P) (st : BatchState P R) (k : P) :
    dlookup (l.foldl (processStep proc) st).results k =
      if k ∈ l then some (proc k) else dlookup st.results k := by
  induction l generalizing st with
  | nil => simp
  | cons a l ih =>
    simp only [List.foldl_cons, ih]
    by_cases hk : k ∈ l
    · simp [hk]
    · by_cases hka : k = a
      · simp [hk, hka, processStep_results, dlookup_dictInsert]
      · simp [hk, hka, processStep_results, dlookup_dictInsert]

theorem foldl_processStep_successCount (l : List P) (st : BatchState P R) :
    (l.foldl (processStep proc) st).successCount =
      st.successCount + l.countP (fun p => (proc p).isSome) := by
  induction l generalizing st with
  | nil => simp
  | cons a l ih =>
    simp only [List.foldl_cons, ih, processStep_successCount, List.countP_cons]
    by_cases h : (proc a).isSome <;> simp [h] <;> omega

theorem foldl_processStep_failedItems (l : List P) (st : BatchState P R) :
    (l.foldl (processStep proc) st).failedItems =
      st.failedItems ++ l.filter (fun p => (proc p).isNone) := by
  induction l generalizing st with
  | nil => simp
  | cons a l ih =>
    simp only [List.foldl_cons, ih, processStep_failedItems, List.filter_cons]
    by_cases h : (proc a).isNone <;> simp [h]

theorem foldl_processStep_dkeys (l : List P) (st : BatchState P R)
    (hl : l.Nodup) (hdisj : ∀ p ∈ l, p ∉ dkeys st.results) :
    dkeys (l.foldl (processStep proc) st).results = dkeys st.results ++ l := by
  induction l generalizing st with
  | nil => simp
  | cons a l ih =>
    have ha : a ∉ dkeys st.results := hdisj a (by simp)
    have hkeys : dkeys (processStep proc st a).results = dkeys st.results ++ [a] := by
      rw [processStep_results, dkeys_dictInsert_of_not_mem _ _ _ ha]
    have hdisj' : ∀ p ∈ l, p ∉ dkeys (processStep proc st a).results := by
      intro p hp
      rw [hkeys]
      simp only [List.mem_append, List.mem_singleton]
      rintro (h | h)
      · exact hdisj p (by simp [hp]) h
      · exact (List.nodup_cons.mp hl).1 (h ▸ hp)
    simp only [List.foldl_cons]
    rw [ih _ (List.nodup_cons.mp hl).2 hdisj', hkeys]
    simp [List.append_assoc]

theorem foldl_processStep_dkeys_nodup (l : List P) (st : BatchState P R)
    (h : (dkeys st.results).Nodup) :
    (dkeys (l.foldl (processStep proc) st).results).Nodup := by
  induction l generalizing st with
  | nil => exact h
  | cons a l ih =>
    simp only [List.foldl_cons]
    refine ih _ ?_
    rw [processStep_results]
    exact dkeys_nodup_dictInsert _ _ _ h

end FoldLemmas

/-! ## Characterization of the batch entry points -/

section BatchCharacterization

variable [DecidableEq P] (proc : P → Option R)

theorem runBatch_all_failed (l : List P) (hl : l ≠ [])
    (h : ∀ p ∈ l, proc p = none) :
    finalizeBatch (l.foldl (processStep proc) (initState (P := P) (R := R))) =
      .error (.batchProcessingError l 0) := by
  have hfail : (l.foldl (processStep proc) initState).failedItems = l := by
    rw [foldl_processStep_failedItems]
    simp only [initState, List.nil_append]
    rw [List.filter_eq_self]
    intro a ha
    simp [h a ha]
  have hcnt : (l.foldl (processStep proc) initState).successCount = 0 := by
    rw [foldl_processStep_successCount]
    simp only [initState, Nat.zero_add]
    rw [List.countP_eq_zero]
    intro a ha
    simp [h a ha]
  have hne : (l.foldl (processStep proc) initState).failedItems ≠ [] := by
    rw [hfail]; exact hl
  rw [finalizeBatch, if_pos ⟨hne, hcnt⟩, hfail]

theorem runBatch_some_success (l : List P)
    (h : ∃ p ∈ l, (proc p).isSome) :
    finalizeBatch (l.foldl (processStep proc) (initState (P := P) (R := R))) =
      .ok ((l.foldl (processStep proc) initState).results) := by
  have hpos : 0 < l.countP (fun p => (proc p).isSome) := by
    rw [List.countP_pos]
    obtain ⟨p, hp, hps⟩ := h
    exact ⟨p, hp, hps⟩
  have hcnt : (l.foldl (processStep proc) initState).successCount ≠ 0 := by
    rw [foldl_processStep_successCount]
    simp only [initState, Nat.zero_add]
    omega
  have hcond : ¬ ((l.foldl (processStep proc) initState).failedItems ≠ [] ∧
      (l.foldl (processStep proc) initState).successCount = 0) :=
    fun hc => hcnt hc.2
  rw [finalizeBatch, if_neg hcond]

theorem runBatch_error_imp (l : List P) (e : BatchErr P)
    (h : finalizeBatch (l.foldl (processStep proc) (initState (P := P) (R := R))) = .error e) :
    ∀ p ∈ l, proc p = none := by
  by_contra hc
  push_neg at hc
  obtain ⟨p, hp, hpn⟩ := hc
  rw [runBatch_some_success proc l ⟨p, hp, Option.isSome_iff_ne_none.mpr hpn⟩] at h
  exact Except.noConfusion h

theorem runBatch_results_dlookup (l : List P) (k : P) :
    dlookup (l.foldl (processStep proc) (initState (P := P) (R := R))).results k =
      if k ∈ l then some (proc k) else none := by
  rw [foldl_processStep_dlookup]
  rfl

end BatchCharacterization

section EntryPoints

variable [DecidableEq P] (proc : P → Option R)

theorem process_batch_all_failed (paths : List P) (hne : paths ≠ [])
    (h : ∀ p ∈ paths, proc p = none) :
    process_batch proc paths = .error (.batchProcessingError paths 0) := by
  rw [process_batch, if_neg hne]
  exact runBatch_all_failed proc paths hne h

theorem process_batch_ok (paths : List P)
    (h : ∃ p ∈ paths, (proc p).isSome) :
    process_batch proc paths = .ok ((paths.foldl (processStep proc) initState).results) := by
  obtain ⟨p, hp, _⟩ := h
  rw [process_batch, if_neg (List.ne_nil_of_mem hp)]
  exact runBatch_some_success proc paths ⟨p, hp, by assumption⟩

theorem process_batch_parallel_all_failed (paths order : List P)
    (hne : paths ≠ []) (hperm : order.Perm paths)
    (h : ∀ p ∈ paths, proc p = none) :
    process_batch_parallel proc paths order = .error (.batchProcessingError order 0) := by
  have hone : order ≠ [] := by
    intro h0
    exact hne (List.perm_nil.mp (h0 ▸ hperm).symm)
  rw [process_batch_parallel, if_neg hne]
  exact runBatch_all_failed proc order hone (fun p hp => h p (hperm.subset hp))

theorem process_batch_parallel_ok (paths order : List P)
    (hne : paths ≠ []) (hperm : order.Perm paths)
    (h : ∃ p ∈ paths, (proc p).isSome) :
    process_batch_parallel proc paths order =
      .ok ((order.foldl (processStep proc) initState).results) := by
  obtain ⟨p, hp, hps⟩ := h
  rw [process_batch_parallel, if_neg hne]
  exact runBatch_some_success proc order ⟨p, hperm.mem_iff.mpr hp, hps⟩

end EntryPoints

/-! ## Chunking lemmas -/

section ChunkLemmas

variable [DecidableEq P] (proc : P → Option R)

theorem pyChunks_join (cs : Int) (hcs : 1 ≤ cs) (l : List P) :
    (pyChunks cs l).join = l := by
  induction l using pyChunks.induct cs with
  | case1 => simp [pyChunks]
  | case2 a rest h ih =>
    rw [pyChunks]
    simp only [dif_pos h, List.join_cons, ih, List.take_append_drop]
  | case3 a rest h => exact absurd hcs h

theorem pyChunks_ne_nil (cs : Int) (hcs : 1 ≤ cs) (c : List P)
    (hc : c ∈ pyChunks cs l) : c ≠ [] := by
  induction l using pyChunks.induct cs with
  | case1 => simp [pyChunks] at hc
  | case2 a rest h ih =>
    rw [pyChunks, dif_pos h] at hc
    rcases List.mem_cons.mp hc with h' | h'
    · subst h'
      intro hcontra
      rw [List.take_eq_nil_iff] at hcontra
      rcases hcontra with h0 | h0
      · simp at h0
        omega
      · simp at h0
    · exact ih h'
  | case3 a rest h => exact absurd hcs h

theorem chunked_foldlM (cl : List (List P)) (ordF : List P → List P)
    (hsucc : ∀ c ∈ cl, ∃ p ∈ c, (proc p).isSome)
    (hord : ∀ c ∈ cl, (ordF c).Perm c)
    (acc : List (P × Option R)) (hacc : (dkeys acc).Nodup) :
    ∃ m, cl.foldlM
        (fun acc c => (process_batch_parallel proc c (ordF c)).map (dictMerge acc)) acc =
        .ok m ∧
      (dkeys m).Nodup ∧
      ∀ k, dlookup m k = if k ∈ cl.join then some (proc k) else dlookup acc k := by
  induction cl generalizing acc with
  | nil =>
    refine ⟨acc, rfl, hacc, ?_⟩
    intro k
    simp
  | cons c cl ih =>
    obtain ⟨p, hp, hps⟩ := hsucc c (by simp)
    have hcne : c ≠ [] := List.ne_nil_of_mem hp
    have hordc : (ordF c).Perm c := hord c (by simp)
    have hpar := process_batch_parallel_ok proc c (ordF c) hcne hordc ⟨p, hp, hps⟩
    set mc := ((ordF c).foldl (processStep proc) initState).results with hmc
    have hmcnodup : (dkeys mc).Nodup :=
      foldl_processStep_dkeys_nodup proc (ordF c) initState (by simp [initState])
    have hmclook : ∀ k, dlookup mc k = if k ∈ c then some (proc k) else none := by
      intro k
      rw [hmc, runBatch_results_dlookup]
      by_cases h : k ∈ c
      · rw [if_pos (hordc.mem_iff.mpr h), if_pos h]
      · rw [if_neg (fun hh => h (hordc.mem_iff.mp hh)), if_neg h]
    have hstep : (process_batch_parallel proc c (ordF c)).map (dictMerge acc) =
        .ok (dictMerge acc mc) := by
      rw [hpar]
      rfl
    have hacc' : (dkeys (dictMerge acc mc)).Nodup := dkeys_dictMerge_nodup acc mc hacc
    obtain ⟨m, hm, hmnodup, hmlook⟩ :=
      ih (fun c' hc' => hsucc c' (by simp [hc'])) (fun c' hc' => hord c' (by simp [hc']))
        (dictMerge acc mc) hacc'
    refine ⟨m, ?_, hmnodup, ?_⟩
    · rw [List.foldlM_cons, hstep]
      exact hm
    · intro k
      rw [hmlook k, dlookup_dictMerge acc mc k hmcnodup, hmclook k]
      by_cases h1 : k ∈ cl.join
      · simp [List.join_cons, h1]
      · by_cases h2 : k ∈ c
        · simp [List.join_cons, h1, h2, Option.orElse]
        · simp [List.join_cons, h1, h2, Option.orElse]

theorem process_batch_chunked_ok (paths : List P) (cs : Int) (ordF : List P → List P)
    (hcs : 1 ≤ cs)
    (hsucc : ∀ c ∈ pyChunks cs paths, ∃ p ∈ c, (proc p).isSome)
    (hord : ∀ c ∈ pyChunks cs paths, (ordF c).Perm c) :
    ∃ m, process_batch_chunked proc paths cs ordF = .ok m ∧
      (dkeys m).Nodup ∧
      ∀ k, dlookup m k = if k ∈ paths then some (proc k) else none := by
  by_cases hp : paths = []
  · subst hp
    refine ⟨[], by simp [process_batch_chunked], by simp, ?_⟩
    intro k
    simp [dlookup]
  · obtain ⟨m, hm, hnodup, hlook⟩ :=
      chunked_foldlM proc (pyChunks cs paths) ordF hsucc hord [] (by simp)
    refine ⟨m, ?_, hnodup, ?_⟩
    · rw [process_batch_chunked, if_neg hp, if_neg (by omega : ¬ cs = 0)]
      exact hm
    · intro k
      rw [hlook k, pyChunks_join cs hcs paths]
      by_cases h : k ∈ paths
      · rw [if_pos h, if_pos h]
      · rw [if_neg h, if_neg h]
        rfl

end ChunkLemmas

/-! ## Claim C2: chunked versus unchunked batch processing -/

/-- **C2 counterexample.** With paths `[0, 1]` where `0` succeeds and `1`
fails and `chunk_size = 1`, chunked processing raises
`BatchProcessingError` (the second chunk `[1]` has zero successes) while
unchunked processing (parallel or sequential) returns normally with a
failure marker for `1`: chunk boundaries do change the raise-or-return
outcome. -/
theorem c2_chunk_boundary_changes_outcome_counterexample :
    process_batch_chunked (fun p : Nat => if p = 0 then some 5 else none) [0, 1] 1
        (fun c => c) =
      .error (.batchProcessingError [1] 0) ∧
    process_batch_parallel (fun p : Nat => if p = 0 then some 5 else none) [0, 1] [0, 1] =
      .ok [(0, some 5), (1, none)] ∧
    process_batch (fun p : Nat => if p = 0 then some 5 else none) [0, 1] =
      .ok [(0, some 5), (1, none)] := by
  have hch : pyChunks (1 : Int) ([0, 1] : List Nat) = [[0], [1]] := by
    simp [pyChunks]
  refine ⟨?_, by rfl, by rfl⟩
  simp only [process_batch_chunked, hch]
  rfl

/-- **C2 (amended).** Chunked batch processing returns the same result
mapping as unchunked batch processing *provided every chunk contains at
least one succeeding path* (for any chunk size ≥ 1 and any completion
orders).  In general the equivalence fails: `process_batch_chunked` raises
the aggregate error as soon as one chunk has zero successes, even when
other chunks succeeded, whereas unchunked processing raises only when the
whole list has zero successes. -/
theorem c2_chunked_eq_unchunked_of_chunkwise_success {P R : Type} [DecidableEq P]
    (proc : P → Option R) (paths order : List P) (cs : Int) (ordF : List P → List P)
    (hcs : 1 ≤ cs) (hperm : order.Perm paths)
    (hord : ∀ c ∈ pyChunks cs paths, (ordF c).Perm c)
    (hsucc : ∀ c ∈ pyChunks cs paths, ∃ p ∈ c, (proc p).isSome) :
    ∃ m m', process_batch_chunked proc paths cs ordF = .ok m ∧
      process_batch_parallel proc paths order = .ok m' ∧
      ∀ k, dlookup m k = dlookup m' k := by
  obtain ⟨m, hm, _, hmlook⟩ := process_batch_chunked_ok proc paths cs ordF hcs hsucc hord
  by_cases hp : paths = []
  · subst hp
    have horder : order = [] := List.perm_nil.mp hperm
    refine ⟨m, [], hm, by simp [process_batch_parallel], ?_⟩
    intro k
    rw [hmlook k]
    simp [dlookup]
  · have hglobal : ∃ p ∈ paths, (proc p).isSome := by
      obtain ⟨a, rest, rfl⟩ := List.exists_cons_of_ne_nil hp
      have hchne : pyChunks cs (a :: rest) ≠ [] := by
        intro hcontra
        have := pyChunks_join cs hcs (a :: rest)
        rw [hcontra] at this
        exact List.noConfusion this
      obtain ⟨c, rest', hcr⟩ := List.exists_cons_of_ne_nil hchne
      obtain ⟨p, hp', hps⟩ := hsucc c (by rw [hcr]; simp)
      refine ⟨p, ?_, hps⟩
      rw [← pyChunks_join cs hcs (a :: rest)]
      exact List.mem_join.mpr ⟨c, by rw [hcr]; simp, hp'⟩
    have hpar := process_batch_parallel_ok proc paths order hp hperm hglobal
    refine ⟨m, _, hm, hpar, ?_⟩
    intro k
    rw [hmlook k, runBatch_results_dlookup]
    by_cases h : k ∈ paths
    · rw [if_pos h, if_pos (hperm.mem_iff.mpr h)]
    · rw [if_neg h, if_neg (fun hh => h (hperm.mem_iff.mp hh))]

/-- Witness for the amended C2 at a concrete instance: paths `[0, 1, 2]`
with `0` and `2` succeeding and `1` failing, `chunk_size = 2` (so the one
failing path shares its chunk with a succeeding one), reversed completion
orders. -/
theorem c2_chunked_eq_unchunked_of_chunkwise_success_witness :
    ((1 : Int) ≤ 2 ∧ ([2, 1, 0] : List Nat).Perm [0, 1, 2] ∧
      (∀ c ∈ pyChunks 2 ([0, 1, 2] : List Nat), (c.reverse).Perm c) ∧
      (∀ c ∈ pyChunks 2 ([0, 1, 2] : List Nat),
        ∃ p ∈ c, ((if p = 1 then none else some p : Option Nat)).isSome)) ∧
    (∃ m m', process_batch_chunked (fun p : Nat => if p = 1 then none else some p)
        [0, 1, 2] 2 (fun c => c.reverse) = .ok m ∧
      process_batch_parallel (fun p : Nat => if p = 1 then none else some p)
        [0, 1, 2] [2, 1, 0] = .ok m' ∧
      ∀ k, dlookup m k = dlookup m' k) := by
  have hch : pyChunks (2 : Int) ([0, 1, 2] : List Nat) = [[0, 1], [2]] := by
    simp [pyChunks]
  refine ⟨⟨by norm_num, by decide, ?_, ?_⟩, ?_⟩
  · rw [hch]
    intro c hc
    rcases List.mem_cons.mp hc with h | h
    · subst h; decide
    · simp at h; subst h; decide
  · rw [hch]
    intro c hc
    rcases List.mem_cons.mp hc with h | h
    · subst h; exact ⟨0, by decide, by decide⟩
    · simp at h; subst h; exact ⟨2, by decide, by decide⟩
  · refine c2_chunked_eq_unchunked_of_chunkwise_success
      (fun p : Nat => if p = 1 then none else some p) [0, 1, 2] [2, 1, 0] 2
      (fun c => c.reverse) (by norm_num) (by decide) ?_ ?_
    · rw [hch]
      intro c hc
      rcases List.mem_cons.mp hc with h | h
      · subst h; decide
      · simp at h; subst h; decide
    · rw [hch]
      intro c hc
      rcases List.mem_cons.mp hc with h | h
      · subst h; exact ⟨0, by decide, by decide⟩
      · simp at h; subst h; exact ⟨2, by decide, by decide⟩

/-! ## Claim C3: one result entry per distinct input path -/

/-- **C3 counterexample.** "Regardless of the chunk size" fails: with the
single valid path `[0]` and `chunk_size = -1`, Python's
`range(0, total, -1)` is empty, so `process_batch_chunked` builds zero
chunks and returns an empty mapping (0 keys instead of N = 1). -/
theorem c3_negative_chunk_size_counterexample :
    process_batch_chunked (fun _ : Nat => (some 5 : Option Nat)) [0] (-1) (fun c => c) =
      .ok [] ∧
    ∀ m, process_batch_chunked (fun _ : Nat => (some 5 : Option Nat)) [0] (-1)
        (fun c => c) = .ok m → m.length ≠ 1 := by
  have hch : pyChunks (-1 : Int) ([0] : List Nat) = [] := by
    simp [pyChunks]
  have h1 : process_batch_chunked (fun _ : Nat => (some 5 : Option Nat)) [0] (-1)
      (fun c => c) = .ok [] := by
    simp only [process_batch_chunked, hch]
    rfl
  refine ⟨h1, ?_⟩
  intro m hm
  rw [h1] at hm
  injection hm with h2
  rw [← h2]
  decide

/-- **C3 (amended).** For every list of N distinct input paths that all
process successfully, every batch entry point returns a mapping with
exactly one entry per supplied path — no duplicates, no omissions —
regardless of completion order and for every *positive* chunk size (a
negative chunk size makes the chunked entry point return an empty mapping,
and worker count does not influence the result at all). -/
theorem c3_one_entry_per_distinct_path {P R : Type} [DecidableEq P]
    (proc : P → Option R) (paths order : List P) (cs : Int) (ordF : List P → List P)
    (hnodup : paths.Nodup) (hvalid : ∀ p ∈ paths, (proc p).isSome)
    (hperm : order.Perm paths) (hcs : 1 ≤ cs)
    (hord : ∀ c ∈ pyChunks cs paths, (ordF c).Perm c) :
    (∃ m, process_batch proc paths = .ok m ∧ dkeys m = paths) ∧
    (∃ m, process_batch_parallel proc paths order = .ok m ∧ dkeys m = order ∧
      (dkeys m).Perm paths ∧ m.length = paths.length) ∧
    (∃ m, process_batch_chunked proc paths cs ordF = .ok m ∧
      (dkeys m).Perm paths ∧ m.length = paths.length) := by
  have hcsucc : ∀ c ∈ pyChunks cs paths, ∃ p ∈ c, (proc p).isSome := by
    intro c hc
    obtain ⟨a, rest, rfl⟩ := List.exists_cons_of_ne_nil (pyChunks_ne_nil cs hcs c hc)
    refine ⟨a, by simp, hvalid a ?_⟩
    rw [← pyChunks_join cs hcs paths]
    exact List.mem_join.mpr ⟨a :: rest, hc, by simp⟩
  by_cases hp : paths = []
  · subst hp
    have horder : order = [] := List.perm_nil.mp hperm
    subst horder
    refine ⟨⟨[], by rfl, rfl⟩, ⟨[], by rfl, rfl, by simp, by simp⟩, ⟨[], ?_, by simp, by simp⟩⟩
    simp [process_batch_chunked]
  · obtain ⟨a, rest, hpa⟩ := List.exists_cons_of_ne_nil hp
    have ha : a ∈ paths := by rw [hpa]; simp
    have hsome : ∃ p ∈ paths, (proc p).isSome := ⟨a, ha, hvalid a ha⟩
    have honodup : order.Nodup := (hperm.nodup_iff).mpr hnodup
    refine ⟨⟨_, process_batch_ok proc paths hsome, ?_⟩,
      ⟨_, process_batch_parallel_ok proc paths order hp hperm hsome, ?_, ?_, ?_⟩, ?_⟩
    · rw [foldl_processStep_dkeys proc paths initState hnodup (by intro p _; simp [initState])]
      simp [initState]
    · rw [foldl_processStep_dkeys proc order initState honodup (by intro p _; simp [initState])]
      simp [initState]
    · rw [foldl_processStep_dkeys proc order initState honodup (by intro p _; simp [initState])]
      simpa [initState] using hperm
    · have hkeys : dkeys ((order.foldl (processStep proc) initState).results) = order := by
        rw [foldl_processStep_dkeys proc order initState honodup
          (by intro p _; simp [initState])]
        simp [initState]
      have := congrArg List.length hkeys
      rw [dkeys, List.length_map] at this
      rw [this, hperm.length_eq]
    · obtain ⟨m, hm, hmnodup, hmlook⟩ :=
        process_batch_chunked_ok proc paths cs ordF hcs hcsucc hord
      have hmemiff : ∀ k, k ∈ dkeys m ↔ k ∈ paths := by
        intro k
        rw [mem_dkeys_iff_dlookup, hmlook k]
        by_cases h : k ∈ paths
        · simp [h]
        · simp [h]
      have hkperm : (dkeys m).Perm paths :=
        (List.perm_ext_iff_of_nodup hmnodup hnodup).mpr hmemiff
      refine ⟨m, hm, hkperm, ?_⟩
      have := hkperm.length_eq
      rw [dkeys, List.length_map] at this
      exact this

/-- Witness for the amended C3 at a concrete instance: distinct valid paths
`[0, 1]`, completion order `[1, 0]`, chunk size `1`, reversed per-chunk
orders. -/
theorem c3_one_entry_per_distinct_path_witness :
    (([0, 1] : List Nat).Nodup ∧
      (∀ p ∈ ([0, 1] : List Nat), ((some (p + 10) : Option Nat)).isSome) ∧
      ([1, 0] : List Nat).Perm [0, 1] ∧ (1 : Int) ≤ 1 ∧
      (∀ c ∈ pyChunks 1 ([0, 1] : List Nat), (c.reverse).Perm c)) ∧
    ((∃ m, process_batch (fun p : Nat => some (p + 10)) [0, 1] = .ok m ∧
        dkeys m = [0, 1]) ∧
      (∃ m, process_batch_parallel (fun p : Nat => some (p + 10)) [0, 1] [1, 0] = .ok m ∧
        dkeys m = [1, 0] ∧ (dkeys m).Perm [0, 1] ∧ m.length = ([0, 1] : List Nat).length) ∧
      (∃ m, process_batch_chunked (fun p : Nat => some (p + 10)) [0, 1] 1
          (fun c => c.reverse) = .ok m ∧
        (dkeys m).Perm [0, 1] ∧ m.length = ([0, 1] : List Nat).length)) := by
  have hch : pyChunks (1 : Int) ([0, 1] : List Nat) = [[0], [1]] := by
    simp [pyChunks]
  have hord : ∀ c ∈ pyChunks 1 ([0, 1] : List Nat), (c.reverse).Perm c := by
    rw [hch]
    intro c hc
    rcases List.mem_cons.mp hc with h | h
    · subst h; decide
    · simp at h; subst h; decide
  exact ⟨⟨by decide, by decide, by decide, by norm_num, hord⟩,
    c3_one_entry_per_distinct_path (fun p : Nat => some (p + 10)) [0, 1] [1, 0] 1
      (fun c => c.reverse) (by decide) (by decide) (by decide) (by norm_num) hord⟩

/-! ## Claim C1: the aggregate failure policy -/

/-- **C1.** For every non-empty list of input paths: both batch entry points
(`CVDSimulator.process_batch` and `AsyncCVDSimulator.process_batch_parallel`,
the latter for every completion order) raise an exception iff zero paths
succeed; when they raise, the error is `BatchProcessingError` carrying the
full list of failed paths and success count `0`; and when at least one path
succeeds they return normally with a mapping in which every failed path is
marked with the explicit failure marker `None`. -/
theorem c1_batch_aggregate_failure_iff {P R : Type} [DecidableEq P]
    (proc : P → Option R) (paths order : List P)
    (hne : paths ≠ []) (hperm : order.Perm paths) :
    ((∃ e, process_batch proc paths = .error e) ↔ ∀ p ∈ paths, proc p = none) ∧
    ((∃ e, process_batch_parallel proc paths order = .error e) ↔
      ∀ p ∈ paths, proc p = none) ∧
    ((∀ p ∈ paths, proc p = none) →
      process_batch proc paths = .error (.batchProcessingError paths 0) ∧
      process_batch_parallel proc paths order =
        .error (.batchProcessingError order 0)) ∧
    ((∃ p ∈ paths, (proc p).isSome) →
      ∃ m m', process_batch proc paths = .ok m ∧
        process_batch_parallel proc paths order = .ok m' ∧
        ∀ p ∈ paths, proc p = none →
          dlookup m p = some none ∧ dlookup m' p = some none) := by
  refine ⟨⟨?_, ?_⟩, ⟨?_, ?_⟩, ?_, ?_⟩
  · rintro ⟨e, he⟩
    rw [process_batch, if_neg hne] at he
    exact runBatch_error_imp proc paths e he
  · intro h
    exact ⟨_, process_batch_all_failed proc paths hne h⟩
  · rintro ⟨e, he⟩
    rw [process_batch_parallel, if_neg hne] at he
    intro p hp
    exact runBatch_error_imp proc order e he p (hperm.mem_iff.mpr hp)
  · intro h
    exact ⟨_, process_batch_parallel_all_failed proc paths order hne hperm h⟩
  · intro h
    exact ⟨process_batch_all_failed proc paths hne h,
      process_batch_parallel_all_failed proc paths order hne hperm h⟩
  · intro h
    refine ⟨_, _, process_batch_ok proc paths h,
      process_batch_parallel_ok proc paths order hne hperm h, ?_⟩
    intro p hp hpn
    constructor
    · rw [runBatch_results_dlookup, if_pos hp, hpn]
    · rw [runBatch_results_dlookup, if_pos (hperm.mem_iff.mpr hp), hpn]

/-- Witness for C1 at a concrete instance: paths `[0, 1]`, completion order
`[1, 0]`, path `0` succeeds with result `7`, path `1` fails. -/
theorem c1_batch_aggregate_failure_iff_witness :
    (([0, 1] : List Nat) ≠ [] ∧ ([1, 0] : List Nat).Perm [0, 1]) ∧
    (((∃ e, process_batch (fun p : Nat => if p = 0 then some 7 else none) [0, 1] = .error e) ↔
        ∀ p ∈ [0, 1], (if p = 0 then some 7 else none : Option Nat) = none) ∧
      ((∃ e, process_batch_parallel (fun p : Nat => if p = 0 then some 7 else none)
          [0, 1] [1, 0] = .error e) ↔
        ∀ p ∈ [0, 1], (if p = 0 then some 7 else none : Option Nat) = none) ∧
      ((∀ p ∈ [0, 1], (if p = 0 then some 7 else none : Option Nat) = none) →
        process_batch (fun p : Nat => if p = 0 then some 7 else none) [0, 1] =
          .error (.batchProcessingError [0, 1] 0) ∧
        process_batch_parallel (fun p : Nat => if p = 0 then some 7 else none) [0, 1] [1, 0] =
          .error (.batchProcessingError [1, 0] 0)) ∧
      ((∃ p ∈ [0, 1], ((if p = 0 then some 7 else none : Option Nat)).isSome) →
        ∃ m m', process_batch (fun p : Nat => if p = 0 then some 7 else none) [0, 1] = .ok m ∧
          process_batch_parallel (fun p : Nat => if p = 0 then some 7 else none)
            [0, 1] [1, 0] = .ok m' ∧
          ∀ p ∈ [0, 1], (if p = 0 then some 7 else none : Option Nat) = none →
            dlookup m p = some none ∧ dlookup m' p = some none)) :=
  ⟨⟨by decide, by decide⟩,
    c1_batch_aggregate_failure_iff (fun p : Nat => if p = 0 then some 7 else none)
      [0, 1] [1, 0] (by decide) (by decide)⟩

/-! ## Claim C10: the empty batch -/

/-- **C10.** For the empty input list, all three batch entry points return an
empty mapping and raise nothing, even though the number of successful paths
is zero. -/
theorem c10_empty_batch_returns_empty {P R : Type} [DecidableEq P]
    (proc : P → Option R) (cs : Int) (ordF : List P → List P) :
    process_batch proc ([] : List P) = .ok [] ∧
    process_batch_parallel proc ([] : List P) [] = .ok [] ∧
    process_batch_chunked proc ([] : List P) cs ordF = .ok [] := by
  refine ⟨?_, ?_, ?_⟩ <;> simp [process_batch, process_batch_parallel, process_batch_chunked]

/-! ## Claim C4: atomic configuration construction -/

theorem validateFields_ok_iff (c : SimulationConfig) :
    c.validateFields = .ok () ↔
      (0 ≤ c.severity ∧ c.severity ≤ 1 ∧ 1 ≤ c.quality ∧ c.quality ≤ 95 ∧
        (∀ w, c.max_workers = some w → 1 ≤ w) ∧
        1 ≤ c.max_image_size ∧ 1 ≤ c.max_image_dimension) := by
  unfold SimulationConfig.validateFields
  split_ifs with h1 h2 h3 h4 h5
  · simp only [false_iff]
    rintro ⟨_, _, _, _, hw, _, _⟩
    cases hmw : c.max_workers with
    | none =>
      rw [hmw] at h3
      exact Bool.noConfusion h3
    | some w =>
      rw [hmw] at h3
      have hlt : w < 1 := of_decide_eq_true h3
      have := hw w hmw
      omega
  · simp only [false_iff]
    rintro ⟨_, _, _, _, _, hsz, _⟩
    omega
  · simp only [false_iff]
    rintro ⟨_, _, _, _, _, _, hdim⟩
    omega
  · constructor
    · intro _
      refine ⟨h1.1, h1.2, h2.1, h2.2, ?_, by omega, by omega⟩
      intro w hw
      rw [hw] at h3
      simp [workersInvalid] at h3
      omega
    · intro _
      trivial
  · simp only [false_iff]
    rintro ⟨_, _, hq1, hq95, _⟩
    exact h2 ⟨hq1, hq95⟩
  · simp only [false_iff]
    rintro ⟨hs0, hs1, _⟩
    exact h1 ⟨hs0, hs1⟩

/-- **C4.** `SimulationConfig` construction is atomic: it returns an
object iff severity ∈ [0,1], quality ∈ [1,95], any supplied worker count
is ≥ 1, and max_image_size and max_image_dimension are positive; the
object returned is exactly the assigned field record, and on any
out-of-range field the construction fails with a `ValidationError` and
no object is produced. -/
theorem c4_config_construction_atomic (alg : Algorithm) (severity : ℚ)
    (fmt : OutputFormat) (outDir : List String) (quality : Int) (optimize : Bool)
    (lvl : LogLevel) (max_workers : Option Int) (max_image_size max_image_dimension : Int) :
    ((∃ c, mkSimulationConfig alg severity fmt outDir quality optimize lvl
        max_workers max_image_size max_image_dimension = .ok c) ↔
      (0 ≤ severity ∧ severity ≤ 1 ∧ 1 ≤ quality ∧ quality ≤ 95 ∧
        (∀ w, max_workers = some w → 1 ≤ w) ∧
        1 ≤ max_image_size ∧ 1 ≤ max_image_dimension)) ∧
    (∀ c, mkSimulationConfig alg severity fmt outDir quality optimize lvl
        max_workers max_image_size max_image_dimension = .ok c →
      c = ⟨alg, severity, fmt, outDir, quality, optimize, lvl,
        max_workers, max_image_size, max_image_dimension⟩) := by
  have hmk : mkSimulationConfig alg severity fmt outDir quality optimize lvl
      max_workers max_image_size max_image_dimension =
      (SimulationConfig.validateFields ⟨alg, severity, fmt, outDir, quality, optimize, lvl,
        max_workers, max_image_size, max_image_dimension⟩).map
        (fun _ => (⟨alg, severity, fmt, outDir, quality, optimize, lvl,
          max_workers, max_image_size, max_image_dimension⟩ : SimulationConfig)) := rfl
  refine ⟨⟨?_, ?_⟩, ?_⟩
  · rintro ⟨c, hc⟩
    rw [hmk] at hc
    cases h : SimulationConfig.validateFields ⟨alg, severity, fmt, outDir, quality, optimize,
        lvl, max_workers, max_image_size, max_image_dimension⟩ with
    | error e =>
      rw [h] at hc
      exact Except.noConfusion hc
    | ok u =>
      cases u
      exact (validateFields_ok_iff _).mp h
  · intro hP
    have hv : SimulationConfig.validateFields ⟨alg, severity, fmt, outDir, quality, optimize,
        lvl, max_workers, max_image_size, max_image_dimension⟩ = .ok () :=
      (validateFields_ok_iff _).mpr hP
    rw [hmk, hv]
    exact ⟨_, rfl⟩
  · intro c hc
    rw [hmk] at hc
    cases h : SimulationConfig.validateFields ⟨alg, severity, fmt, outDir, quality, optimize,
        lvl, max_workers, max_image_size, max_image_dimension⟩ with
    | error e =>
      rw [h] at hc
      exact Except.noConfusion hc
    | ok u =>
      rw [h] at hc
      injection hc with hc'
      exact hc'.symm

theorem lumaL_of_equal_channels (l : Nat) : lumaL ⟨l, l, l⟩ = l := by
  unfold lumaL
  have h : l * 19595 + l * 38470 + l * 7471 + 32768 = 65536 * l + 32768 := by ring
  simp only [h]
  rw [Nat.mul_add_div (by norm_num)]
  norm_num

theorem grayscalePixel_idem (p : RGB) :
    grayscalePixel (grayscalePixel p) = grayscalePixel p := by
  unfold grayscalePixel
  simp [lumaL_of_equal_channels]

/-- **C8.** GRAYSCALE simulation always produces three numerically equal
channels (exactly equal here, stronger than the claimed rounding
tolerance); its output is independent of the configured severity and
algorithm and of the external simulator; and it is idempotent: simulating
an already-grayscale-simulated image again yields the same image. -/
theorem c8_grayscale_equal_channels_config_independent_idempotent
    (ext ext' : Algorithm → List RGB → CVDType → ℚ → List RGB)
    (cfg cfg' : SimulationConfig) (image : List RGB) :
    (∀ p ∈ simulate ext cfg image CVDType.GRAYSCALE, p.r = p.g ∧ p.g = p.b) ∧
    simulate ext cfg image CVDType.GRAYSCALE =
      simulate ext' cfg' image CVDType.GRAYSCALE ∧
    simulate ext cfg (simulate ext' cfg' image CVDType.GRAYSCALE) CVDType.GRAYSCALE =
      simulate ext' cfg' image CVDType.GRAYSCALE := by
  have hgs : ∀ (e : Algorithm → List RGB → CVDType → ℚ → List RGB)
      (c : SimulationConfig) (img : List RGB),
      simulate e c img CVDType.GRAYSCALE = img.map grayscalePixel := by
    intro e c img
    rw [simulate, if_pos rfl]
  refine ⟨?_, by rw [hgs, hgs], ?_⟩
  · intro p hp
    rw [hgs] at hp
    obtain ⟨q, _, rfl⟩ := List.mem_map.mp hp
    exact ⟨rfl, rfl⟩
  · simp only [hgs, List.map_map]
    exact List.map_congr_left (fun p _ => grayscalePixel_idem p)

/-! ## Lemmas about sanitization -/

theorem hasDD_cons_of_ne (a : Char) (x : PyStr) (h : ¬ a = '.') :
    hasDD (a :: x) = hasDD x := by
  cases x with
  | nil => rfl
  | cons b t => simp [hasDD, h]

theorem replaceDD_head_ne (s : PyStr) (h : ¬ s.head? = some '.') :
    ¬ (replacePat ['.', '.'] ['_'] s).head? = some '.' := by
  cases s with
  | nil => simp [replacePat]
  | cons c rest =>
    have hc : ¬ c = '.' := by
      intro hcc
      exact h (by rw [hcc]; rfl)
    have hpre : ¬ (['.', '.'].isPrefixOf (c :: rest)) := by
      simp [List.isPrefixOf]
      intro hcc
      exact absurd hcc.symm hc
    rw [replacePat, if_neg (by tauto)]
    simp
    exact fun hcc => hc hcc

theorem hasDD_replacePat (s : PyStr) :
    hasDD (replacePat ['.', '.'] ['_'] s) = false := by
  induction s using replacePat.induct ['.', '.'] ['_'] with
  | case1 => simp [replacePat, hasDD]
  | case2 c rest h ih =>
    have hpre := h.2
    cases rest with
    | nil => simp [List.isPrefixOf] at hpre
    | cons d t =>
      rw [replacePat, if_pos h]
      have hdrop : (c :: d :: t).drop (['.', '.'] : PyStr).length = t := rfl
      rw [hdrop] at ih ⊢
      rw [List.singleton_append, hasDD_cons_of_ne _ _ (by decide)]
      exact ih
  | case3 c rest h ih =>
    rw [replacePat, if_neg h]
    by_cases hc : c = '.'
    · subst hc
      have hrest : ¬ rest.head? = some '.' := by
        intro hh
        cases rest with
        | nil => simp at hh
        | cons d t =>
          simp at hh
          subst hh
          exact h ⟨by decide, by simp [List.isPrefixOf]⟩
      have hhead := replaceDD_head_ne rest hrest
      cases hx : replacePat ['.', '.'] ['_'] rest with
      | nil => rfl
      | cons e t' =>
        rw [hx] at hhead ih
        have he : ¬ e = '.' := by
          intro hee
          exact hhead (by rw [hee]; rfl)
        simp [hasDD, he]
        exact ih
    · rw [hasDD_cons_of_ne _ _ hc]
      exact ih

theorem sanitize_filename_chars (f : PyStr) :
    ∀ c ∈ sanitize_filename f, c ∈ safeChars ∨ c = '_' := by
  intro c hc
  unfold sanitize_filename at hc
  dsimp only at hc
  by_cases hcond :
      ((replacePat ['.', '.'] ['_']
          (replacePat [Char.ofNat 0] ['_']
            (replacePat ['\\'] ['_'] (replacePat ['/'] ['_'] f)))).map
        (fun c => if c ∈ safeChars then c else '_') = [] ∨
        (replacePat ['.', '.'] ['_']
          (replacePat [Char.ofNat 0] ['_']
            (replacePat ['\\'] ['_'] (replacePat ['/'] ['_'] f)))).map
          (fun c => if c ∈ safeChars then c else '_') = ['_'])
  · rw [if_pos hcond] at hc
    left
    have hall : ∀ x ∈ "unnamed_file".toList, x ∈ safeChars := by decide
    exact hall c hc
  · rw [if_neg hcond] at hc
    obtain ⟨q, _, rfl⟩ := List.mem_map.mp hc
    by_cases hq : q ∈ safeChars
    · left
      rw [if_pos hq]
      exact hq
    · right
      rw [if_neg hq]

theorem sanitize_filename_ne_nil (f : PyStr) : sanitize_filename f ≠ [] := by
  unfold sanitize_filename
  dsimp only
  split_ifs with hcond
  · decide
  · intro hnil
    exact hcond (Or.inl hnil)

theorem mapSafe_eq_dotdot {l : PyStr}
    (h : l.map (fun c => if c ∈ safeChars then c else '_') = ['.', '.']) :
    l = ['.', '.'] := by
  cases l with
  | nil => simp at h
  | cons c1 l1 =>
    cases l1 with
    | nil => simp at h
    | cons c2 l2 =>
      cases l2 with
      | nil =>
        rw [List.map_cons, List.map_cons, List.map_nil] at h
        injection h with h1 h'
        injection h' with h2 h''
        have hc1 : c1 = '.' := by
          by_cases hq : c1 ∈ safeChars
          · rwa [if_pos hq] at h1
          · rw [if_neg hq] at h1
            exact absurd h1 (by decide)
        have hc2 : c2 = '.' := by
          by_cases hq : c2 ∈ safeChars
          · rwa [if_pos hq] at h2
          · rw [if_neg hq] at h2
            exact absurd h2 (by decide)
        rw [hc1, hc2]
      | cons c3 l3 => simp at h

theorem sanitize_filename_ne_dotdot (f : PyStr) :
    sanitize_filename f ≠ ['.', '.'] := by
  unfold sanitize_filename
  dsimp only
  split_ifs with hcond
  · decide
  · intro hdd
    have hl :
        replacePat ['.', '.'] ['_']
          (replacePat [Char.ofNat 0] ['_']
            (replacePat ['\\'] ['_'] (replacePat ['/'] ['_'] f))) = ['.', '.'] :=
      mapSafe_eq_dotdot hdd
    have := hasDD_replacePat
      (replacePat [Char.ofNat 0] ['_'] (replacePat ['\\'] ['_'] (replacePat ['/'] ['_'] f)))
    rw [hl] at this
    exact absurd this (by decide)

/-! ## Lemmas about path splitting and resolution -/

theorem splitSlashAux_no_slash (s : PyStr) (acc : PyStr)
    (h : ∀ c ∈ s, ¬ c = '/') : splitSlashAux s acc = [acc.reverse ++ s] := by
  induction s generalizing acc with
  | nil => simp [splitSlashAux]
  | cons c rest ih =>
    rw [splitSlashAux, if_neg (h c (by simp))]
    rw [ih (c :: acc) (fun x hx => h x (by simp [hx]))]
    simp

theorem pathComponents_single (s : PyStr) (h : ∀ c ∈ s, ¬ c = '/')
    (hne : s ≠ []) : pathComponents s = [s] := by
  unfold pathComponents
  rw [splitSlashAux_no_slash s [] h]
  simp [hne]

theorem foldl_resolveStep_no_dots (l : List PyStr) (acc : List PyStr)
    (hacc : ∀ c ∈ acc, ¬ c = ['.'] ∧ ¬ c = ['.', '.']) :
    ∀ c ∈ l.foldl resolveStep acc, ¬ c = ['.'] ∧ ¬ c = ['.', '.'] := by
  induction l generalizing acc with
  | nil => exact hacc
  | cons a l ih =>
    rw [List.foldl_cons]
    refine ih (resolveStep acc a) ?_
    unfold resolveStep
    split_ifs with h1 h2
    · exact hacc
    · exact fun c hc => hacc c ((List.dropLast_sublist acc).subset hc)
    · intro c hc
      rcases List.mem_append.mp hc with h | h
      · exact hacc c h
      · rw [List.mem_singleton.mp h]
        exact ⟨h1, h2⟩

theorem foldl_resolveStep_fixed (l : List PyStr) (acc : List PyStr)
    (h : ∀ c ∈ l, ¬ c = ['.'] ∧ ¬ c = ['.', '.']) :
    l.foldl resolveStep acc = acc ++ l := by
  induction l generalizing acc with
  | nil => simp
  | cons a l ih =>
    have ha := h a (by simp)
    rw [List.foldl_cons, resolveStep, if_neg ha.1, if_neg ha.2]
    rw [ih (acc ++ [a]) (fun c hc => h c (by simp [hc]))]
    simp

theorem resolvePath_idem (l : List PyStr) :
    resolvePath (resolvePath l) = resolvePath l := by
  unfold resolvePath
  rw [foldl_resolveStep_fixed _ []
    (foldl_resolveStep_no_dots l [] (by intro c hc; simp at hc))]
  simp

theorem resolvePath_append_single (l : List PyStr) (c : PyStr) :
    resolvePath (resolvePath l ++ [c]) = resolveStep (resolvePath l) c := by
  show List.foldl resolveStep [] (resolvePath l ++ [c]) = _
  rw [List.foldl_append]
  rw [show List.foldl resolveStep [] (resolvePath l) = resolvePath l from resolvePath_idem l]
  rfl

/-! ## Claim C5: output-path sandboxing -/

/-- **C5.** For every base directory and every filename string — including
strings with parent-reference tokens, absolute-path prefixes, or null
bytes — `sanitize_output_path` returns a path that is a descendant of (or
equal to) the resolved base directory; it never returns a path outside the
base directory (in fact the `PATH_TRAVERSAL` branch is unreachable, as the
spec's defense-in-depth note says). -/
theorem c5_sanitize_output_path_never_escapes_base
    (output_dir : List PyStr) (filename : PyStr) :
    ∃ target, sanitize_output_path output_dir filename = .ok target ∧
      resolvePath output_dir <+: target := by
  have hchars := sanitize_filename_chars filename
  have hne := sanitize_filename_ne_nil filename
  have hdd := sanitize_filename_ne_dotdot filename
  have hnoslash : ∀ c ∈ sanitize_filename filename, ¬ c = '/' := by
    intro c hc hslash
    rcases hchars c hc with h | h
    · rw [hslash] at h
      exact absurd h (by decide)
    · rw [hslash] at h
      exact absurd h (by decide)
  have hhead : ¬ (sanitize_filename filename).head? = some '/' := by
    cases hs : sanitize_filename filename with
    | nil => simp
    | cons c rest =>
      simp only [List.head?_cons, Option.some.injEq]
      intro hcc
      exact hnoslash c (by rw [hs]; simp) hcc
  have hjoin : pyJoin (resolvePath output_dir) (sanitize_filename filename) =
      resolvePath output_dir ++ [sanitize_filename filename] := by
    unfold pyJoin
    rw [if_neg hhead, pathComponents_single _ hnoslash hne]
  have hkey : resolvePath (pyJoin (resolvePath output_dir) (sanitize_filename filename)) =
      resolveStep (resolvePath output_dir) (sanitize_filename filename) := by
    rw [hjoin, resolvePath_append_single]
  have hpre : resolvePath output_dir <+:
      resolveStep (resolvePath output_dir) (sanitize_filename filename) := by
    unfold resolveStep
    split_ifs with h1
    · exact List.prefix_refl _
    · exact List.prefix_append _ _
  refine ⟨resolveStep (resolvePath output_dir) (sanitize_filename filename), ?_, hpre⟩
  unfold sanitize_output_path
  dsimp only
  rw [hkey, if_pos hpre]

/-- **C6 counterexample.** With a config `max_workers = 2`, an external
override `5`, 8 CPUs and a single input path, the code picks `5` (override
wins over config, no clamp to the path count), while the claim says the
value should be the config's `2` clamped to the 1-element path list,
i.e. `1`. -/
theorem c6_worker_selection_counterexample :
    effectiveWorkers (some 5) (some 2) 8 = 5 ∧
    claimedWorkers (some 2) (some 5) 8 1 = 1 ∧ (5 : Int) ≠ 1 := by
  refine ⟨rfl, ?_, by decide⟩
  decide

/-- **C6 (amended).** The effective worker count of the batch entry points
is: the externally supplied override if truthy, else the config's
`max_workers` if truthy, else the CPU count — override takes precedence
over config (the reverse of the claimed order) and the value is *not*
clamped to the number of input paths.  The `[1, image_count]` clamp exists
only in the standalone `get_optimal_workers` helper, which does satisfy
`1 ≤ w ≤ image_count` whenever `image_count ≥ 1`. -/
theorem c6_worker_selection_precedence_and_clamp
    (override cfgWorkers : Option Int) (cpu image_count : Int)
    (image_size_mb available_memory_gb : ℚ) (available_cpus : Int)
    (hn : 1 ≤ image_count) :
    (∀ v, override = some v → v ≠ 0 → effectiveWorkers override cfgWorkers cpu = v) ∧
    ((override = none ∨ override = some 0) →
      ∀ v, cfgWorkers = some v → v ≠ 0 → effectiveWorkers override cfgWorkers cpu = v) ∧
    ((override = none ∨ override = some 0) → (cfgWorkers = none ∨ cfgWorkers = some 0) →
      effectiveWorkers override cfgWorkers cpu = cpu) ∧
    (1 ≤ get_optimal_workers image_count image_size_mb available_memory_gb available_cpus ∧
      get_optimal_workers image_count image_size_mb available_memory_gb available_cpus ≤
        image_count) := by
  refine ⟨?_, ?_, ?_, ?_, ?_⟩
  · intro v hv hv0
    rw [hv]
    simp [effectiveWorkers, pyOr, hv0]
  · rintro (h | h) v hv hv0 <;> rw [h, hv] <;> simp [effectiveWorkers, pyOr, hv0]
  · rintro (h | h) (h' | h') <;> rw [h, h'] <;> simp [effectiveWorkers, pyOr]
  · exact le_max_left 1 _
  · exact max_le hn (min_le_right _ _)

/-- Witness for the amended C6 at a concrete instance: override 5, config 2,
8 CPUs, 3 images of 1 MB with 4 GB available memory. -/
theorem c6_worker_selection_precedence_and_clamp_witness :
    ((1 : Int) ≤ 3) ∧
    ((∀ v, (some 5 : Option Int) = some v → v ≠ 0 →
        effectiveWorkers (some 5) (some 2) 8 = v) ∧
      (((some 5 : Option Int) = none ∨ (some 5 : Option Int) = some 0) →
        ∀ v, (some 2 : Option Int) = some v → v ≠ 0 →
          effectiveWorkers (some 5) (some 2) 8 = v) ∧
      (((some 5 : Option Int) = none ∨ (some 5 : Option Int) = some 0) →
        ((some 2 : Option Int) = none ∨ (some 2 : Option Int) = some 0) →
        effectiveWorkers (some 5) (some 2) 8 = 8) ∧
      (1 ≤ get_optimal_workers 3 1 4 8 ∧ get_optimal_workers 3 1 4 8 ≤ 3)) :=
  ⟨by norm_num,
    c6_worker_selection_precedence_and_clamp (some 5) (some 2) 8 3 1 4 8 (by norm_num)⟩

/-- **C7 counterexample.** With zero input paths (and no list flags) the
CLI does not return exit code 1: `parser.error` terminates the process via
`SystemExit` with argparse's usage-error status 2. -/
theorem c7_zero_input_exits_2_counterexample :
    main (P := Nat) ⟨[], false, false, false⟩ true true (fun _ => true) =
      .sysExit 2 ∧
    ExitOutcome.sysExit 2 ≠ ExitOutcome.ret 1 := by
  exact ⟨rfl, by decide⟩

/-- **C7 (amended).** When at least one input path is supplied (and no
list-and-exit flag is set), `main` returns 0 iff configuration and
simulator construction succeed and every supplied input path is processed
successfully, and returns 1 otherwise; with zero input paths it does not
return 1 but terminates through the argument parser with exit status 2. -/
theorem c7_exit_code_zero_iff_all_succeed {P : Type} [DecidableEq P]
    (a : CliArgs P) (configOk simOk : Bool) (proc : P → Bool)
    (hflags : a.list_algorithms = false ∧ a.list_types = false ∧ a.list_presets = false) :
    (a.images = [] → main a configOk simOk proc = .sysExit 2) ∧
    (a.images ≠ [] →
      (main a configOk simOk proc = .ret 0 ↔
        (configOk = true ∧ simOk = true ∧ ∀ p ∈ a.images, proc p = true)) ∧
      (main a configOk simOk proc = .ret 0 ∨ main a configOk simOk proc = .ret 1)) := by
  obtain ⟨imgs, fa, ft, fp⟩ := a
  obtain ⟨h1, h2, h3⟩ := hflags
  dsimp only at h1 h2 h3
  subst h1
  subst h2
  subst h3
  constructor
  · intro hempty
    dsimp only at hempty
    subst hempty
    rfl
  · intro hne
    dsimp only at hne ⊢
    have hmain : main (⟨imgs, false, false, false⟩ : CliArgs P) configOk simOk proc =
        (if ¬ configOk then .ret 1
         else if ¬ simOk then .ret 1
         else .ret (if imgs.countP proc = imgs.length then 0 else 1)) := by
      rw [main]
      simp [hne]
    rw [hmain]
    cases configOk with
    | false =>
      rw [if_pos (by decide : ¬ ((false : Bool) = true))]
      refine ⟨⟨?_, ?_⟩, Or.inr rfl⟩
      · intro h
        injection h with hc
        exact absurd hc (by decide)
      · rintro ⟨hc, -⟩
        exact absurd hc (by decide)
    | true =>
      rw [if_neg (by decide : ¬ ¬ ((true : Bool) = true))]
      cases simOk with
      | false =>
        rw [if_pos (by decide : ¬ ((false : Bool) = true))]
        refine ⟨⟨?_, ?_⟩, Or.inr rfl⟩
        · intro h
          injection h with hc
          exact absurd hc (by decide)
        · rintro ⟨-, hc, -⟩
          exact absurd hc (by decide)
      | true =>
        rw [if_neg (by decide : ¬ ¬ ((true : Bool) = true))]
        by_cases hall : imgs.countP proc = imgs.length
        · rw [if_pos hall]
          refine ⟨⟨?_, fun _ => rfl⟩, Or.inl rfl⟩
          intro _
          exact ⟨rfl, rfl, fun p hp => List.countP_eq_length.mp hall p hp⟩
        · rw [if_neg hall]
          refine ⟨⟨?_, ?_⟩, Or.inr rfl⟩
          · intro h
            injection h with hc
            exact absurd hc (by decide)
          · rintro ⟨-, -, hprocs⟩
            exact absurd (List.countP_eq_length.mpr hprocs) hall

/-- Witness for the amended C7 at a concrete instance: one image path `7`
that succeeds, valid configuration and simulator. -/
theorem c7_exit_code_zero_iff_all_succeed_witness :
    ((⟨[7], false, false, false⟩ : CliArgs Nat).list_algorithms = false ∧
      (⟨[7], false, false, false⟩ : CliArgs Nat).list_types = false ∧
      (⟨[7], false, false, false⟩ : CliArgs Nat).list_presets = false) ∧
    ((([7] : List Nat) = [] →
        main (⟨[7], false, false, false⟩ : CliArgs Nat) true true (fun p => p = 7) =
          .sysExit 2) ∧
      (([7] : List Nat) ≠ [] →
        (main (⟨[7], false, false, false⟩ : CliArgs Nat) true true (fun p => p = 7) =
            .ret 0 ↔
          (true = true ∧ true = true ∧ ∀ p ∈ ([7] : List Nat), (p = 7 : Bool) = true)) ∧
        (main (⟨[7], false, false, false⟩ : CliArgs Nat) true true (fun p => p = 7) =
            .ret 0 ∨
          main (⟨[7], false, false, false⟩ : CliArgs Nat) true true (fun p => p = 7) =
            .ret 1))) :=
  ⟨⟨rfl, rfl, rfl⟩,
    c7_exit_code_zero_iff_all_succeed (⟨[7], false, false, false⟩ : CliArgs Nat)
      true true (fun p => p = 7) ⟨rfl, rfl, rfl⟩⟩

theorem demoteEntries_strEntries (l : List (String × String)) :
    demoteEntries (strEntries l) = some l := by
  induction l with
  | nil => rfl
  | cons kv rest ih =>
    simp [strEntries, demoteEntries] at ih ⊢
    exact ih

/-- **C9.** Exporting any `SimulationMetadata` record to its JSON sidecar
representation and loading that representation back reproduces an equal
record. -/
theorem c9_metadata_roundtrip (m : SimulationMetadata) :
    load_metadata (export_metadata m) = some m := by
  simp [load_metadata, export_metadata, jlookup, load_metadata.asStr,
    load_metadata.getStrMap, load_metadata.getObj, load_metadata.getNum,
    load_metadata.getStr, demoteEntries_strEntries]

/-- Witness for C9 at a concrete metadata record. -/
theorem c9_metadata_roundtrip_witness :
    load_metadata (export_metadata
      ⟨"1.1.1", "2026-02-12T15:30:45Z", "in.jpg", "abc123",
        [("PROTAN", "outputs/protan.jpg")], [("severity", .jnum (4/5))],
        [("platform", "linux")], 12, ""⟩) =
      some ⟨"1.1.1", "2026-02-12T15:30:45Z", "in.jpg", "abc123",
        [("PROTAN", "outputs/protan.jpg")], [("severity", .jnum (4/5))],
        [("platform", "linux")], 12, ""⟩ :=
  c9_metadata_roundtrip
    ⟨"1.1.1", "2026-02-12T15:30:45Z", "in.jpg", "abc123",
      [("PROTAN", "outputs/protan.jpg")], [("severity", .jnum (4/5))],
      [("platform", "linux")], 12, ""⟩

/-- Witness for C10 at a concrete instance: an all-failing oracle, chunk
size 0 and the identity order function. -/
theorem c10_empty_batch_returns_empty_witness :
    process_batch (fun _ : Nat => (none : Option Nat)) [] = .ok [] ∧
    process_batch_parallel (fun _ : Nat => (none : Option Nat)) [] [] = .ok [] ∧
    process_batch_chunked (fun _ : Nat => (none : Option Nat)) [] 0 (fun c => c) =
      .ok [] :=
  c10_empty_batch_returns_empty (fun _ : Nat => (none : Option Nat)) 0 (fun c => c)

/-- Witness for C4 at concrete field values (the library defaults). -/
theorem c4_config_construction_atomic_witness :
    ((∃ c, mkSimulationConfig .BRETTEL_1997 (4/5) .JPEG ["outputs"] 95 true .INFO
        none 104857600 10000 = .ok c) ↔
      (0 ≤ (4/5 : ℚ) ∧ (4/5 : ℚ) ≤ 1 ∧ (1 : Int) ≤ 95 ∧ (95 : Int) ≤ 95 ∧
        (∀ w, (none : Option Int) = some w → 1 ≤ w) ∧
        (1 : Int) ≤ 104857600 ∧ (1 : Int) ≤ 10000)) ∧
    (∀ c, mkSimulationConfig .BRETTEL_1997 (4/5) .JPEG ["outputs"] 95 true .INFO
        none 104857600 10000 = .ok c →
      c = ⟨.BRETTEL_1997, 4/5, .JPEG, ["outputs"], 95, true, .INFO,
        none, 104857600, 10000⟩) :=
  c4_config_construction_atomic .BRETTEL_1997 (4/5) .JPEG ["outputs"] 95 true .INFO
    none 104857600 10000

/-- Witness for C5 at a concrete traversal attempt:
`sanitize_output_path(Path("/out"), "../../../etc/passwd")`. -/
theorem c5_sanitize_output_path_never_escapes_base_witness :
    ∃ target, sanitize_output_path [['o', 'u', 't']] "../../../etc/passwd".toList =
        .ok target ∧
      resolvePath [['o', 'u', 't']] <+: target :=
  c5_sanitize_output_path_never_escapes_base [['o', 'u', 't']]
    "../../../etc/passwd".toList

/-- Witness for C8 at a concrete image and two different configurations
and external simulators. -/
theorem c8_grayscale_witness :
    (∀ p ∈ simulate (fun _ img _ _ => img)
        ⟨.BRETTEL_1997, 4/5, .JPEG, ["outputs"], 95, true, .INFO, none,
          104857600, 10000⟩ [⟨1, 2, 3⟩] CVDType.GRAYSCALE,
      p.r = p.g ∧ p.g = p.b) ∧
    simulate (fun _ img _ _ => img)
        ⟨.BRETTEL_1997, 4/5, .JPEG, ["outputs"], 95, true, .INFO, none,
          104857600, 10000⟩ [⟨1, 2, 3⟩] CVDType.GRAYSCALE =
      simulate (fun _ img _ _ => [])
        ⟨.MACHADO_2009, 0, .PNG, ["outputs"], 50, false, .DEBUG, some 4,
          104857600, 10000⟩ [⟨1, 2, 3⟩] CVDType.GRAYSCALE ∧
    simulate (fun _ img _ _ => img)
        ⟨.BRETTEL_1997, 4/5, .JPEG, ["outputs"], 95, true, .INFO, none,
          104857600, 10000⟩
        (simulate (fun _ img _ _ => [])
          ⟨.MACHADO_2009, 0, .PNG, ["outputs"], 50, false, .DEBUG, some 4,
            104857600, 10000⟩ [⟨1, 2, 3⟩] CVDType.GRAYSCALE)
        CVDType.GRAYSCALE =
      simulate (fun _ img _ _ => [])
        ⟨.MACHADO_2009, 0, .PNG, ["outputs"], 50, false, .DEBUG, some 4,
          104857600, 10000⟩ [⟨1, 2, 3⟩] CVDType.GRAYSCALE :=
  c8_grayscale_equal_channels_config_independent_idempotent
    (fun _ img _ _ => img) (fun _ img _ _ => [])
    ⟨.BRETTEL_1997, 4/5, .JPEG, ["outputs"], 95, true, .INFO, none,
      104857600, 10000⟩
    ⟨.MACHADO_2009, 0, .PNG, ["outputs"], 50, false, .DEBUG, some 4,
      104857600, 10000⟩ [⟨1, 2, 3⟩]

end CVD
